import Mathlib

/-!
Verification development for the YA-PapersWithCode repository.

The first part embeds the frontend TypeScript helpers that the claims
reference directly (`formatAuthors` from `PaperCard.tsx`, the agent-search
HTTP call sites from the Axios API client, and the pagination page-list
computation from `Datasets.tsx`).

The second part models the agent-search pipeline (query planner, layered
expansion engine, relevance scorer, search manager).  The concrete agent
implementation (`agent-search/*.py`, `build_embeddings.py`) is not present
in the repository source — only its README description and the HTTP call
sites are — so those definitions are modelled from the specification text.
The spec marks its numeric thresholds as illustrative placeholders, so
similarity and relevance scores are modelled as integers (a fixed-point
scaling of the float scores, e.g. `×100`), which preserves every ordering
and threshold comparison the claims speak about.
-/

namespace YAPWC

/-- From `PaperCard.tsx`: `formatAuthors` joins up to three author names with
a comma and appends an `et al.` marker when more than three are given. -/
def formatAuthors (authors : List String) : String :=
  if authors.length ≤ 3 then
    String.intercalate ", " authors
  else
    String.intercalate ", " (authors.take 3) ++ ", et al."

/-- An HTTP request as assembled by the Axios API client: a method, a path
relative to the configured base URL, and a JSON body modelled as a list of
key/value string pairs. -/
structure ApiRequest where
  method : String
  path : String
  body : List (String × String)
deriving DecidableEq, Repr

/-- From the API client (`searchPapersWithAgent`): posts `{ query }` to
`/papers/search/agent`. -/
def searchPapersWithAgentRequest (query : String) : ApiRequest :=
  ⟨"POST", "/papers/search/agent", [("query", query)]⟩

/-- From the API client (`searchDatasetsWithAgent`): posts `{ query }` to
`/datasets/search/agent`. -/
def searchDatasetsWithAgentRequest (query : String) : ApiRequest :=
  ⟨"POST", "/datasets/search/agent", [("query", query)]⟩

/-- From `Datasets.tsx` (`handleAgentSearch`): on success the component
stores `data.results` as the dataset list and `data.results.length` as the
displayed total. -/
def handleAgentSearchUpdate (results : List String) : List String × Nat :=
  (results, results.length)

/-- The inclusive integer range `[a, a+1, ..., b]`, empty when `b < a`;
the shape of a JS `for (let i = a; i <= b; i++)` accumulation. -/
def intRange (a b : Int) : List Int :=
  (List.range (b + 1 - a).toNat).map (fun (i : Nat) => a + (i : Int))

/-- From `Datasets.tsx`: the final value of the JS `start` local — the
window start `max(2, currentPage - 2)`, overridden to `totalPages - 4` when
`currentPage >= totalPages - 2` (and not `currentPage <= 3`). -/
def pageStart (totalPages currentPage : Int) : Int :=
  if currentPage ≤ 3 then max 2 (currentPage - 2)
  else if totalPages - 2 ≤ currentPage then totalPages - 4
  else max 2 (currentPage - 2)

/-- From `Datasets.tsx`: the final value of the JS `end` local — the window
end `min(totalPages - 1, currentPage + 2)`, overridden to `5` when
`currentPage <= 3`. -/
def pageEnd (totalPages currentPage : Int) : Int :=
  if currentPage ≤ 3 then 5 else min (totalPages - 1) (currentPage + 2)

/-- From `Datasets.tsx`: the pagination page-button list.  Shows all pages
when `totalPages ≤ 7`; otherwise shows page 1, the window
`[pageStart, pageEnd]` around `currentPage`, and the last page, with `-1`
and `-2` standing for the two ellipsis markers exactly as in the source. -/
def paginationPages (totalPages currentPage : Int) : List Int :=
  if totalPages ≤ 7 then
    intRange 1 totalPages
  else
    [1] ++ (if 2 < pageStart totalPages currentPage then [-1] else []) ++
      intRange (pageStart totalPages currentPage) (pageEnd totalPages currentPage) ++
      (if pageEnd totalPages currentPage < totalPages - 1 then [-2] else []) ++
      [totalPages]

/-- The numeric entries of a pagination list: everything except the two
ellipsis markers `-1` and `-2`. -/
def numericPages (l : List Int) : List Int :=
  l.filter (fun p => p != -1 && p != -2)

example : formatAuthors ["a", "b", "c", "d"] = "a, b, c, et al." := by decide
example : paginationPages 5 2 = [1, 2, 3, 4, 5] := by decide
example : paginationPages 10 1 = [1, 2, 3, 4, 5, -2, 10] := by decide
example : paginationPages 10 9 = [1, -1, 6, 7, 8, 9, 10] := by decide
example : paginationPages 20 10 = [1, -1, 8, 9, 10, 11, 12, -2, 20] := by decide

/-! ## The agent-search pipeline, modelled from the specification

The implementation files (`agent-search/*.py`, `build_embeddings.py`) are
absent from the repository source, so every definition below is modelled
from the specification's component contracts.  Similarity scores and
embedding coordinates are integers (fixed-point scaled); record ids are
naturals. -/

/-- Modelled from the spec: an embedding vector (the concrete embedding
model is absent from the source); a fixed-dimension vector with integer
(fixed-point) coordinates. -/
abbrev Vec := List ℤ

/-- Modelled from the spec: the similarity of a query vector and a record
vector, an inner product standing in for cosine similarity over normalised
vectors. -/
def dot (u v : Vec) : ℤ :=
  (List.zipWith (fun a b => a * b) u v).sum

/-- Modelled from the spec: the Similarity Index owns the embedding entries
it searches over, keyed by record id. -/
structure SimIndex where
  entries : List (Nat × Vec)

/-- The ordering used by `topK`: descending similarity, ties broken by
ascending record id. -/
def simPairLE (a b : Nat × ℤ) : Prop :=
  b.2 < a.2 ∨ (a.2 = b.2 ∧ a.1 ≤ b.1)

instance : DecidableRel simPairLE := fun a b => by
  unfold simPairLE; infer_instance

/-- Modelled from the spec: `topK(queryVector, k, excludeIds)` returns the
`k` best `(recordId, similarity)` pairs, excluding the given ids, ordered by
descending similarity. -/
def SimIndex.topK (idx : SimIndex) (q : Vec) (k : Nat) (exclude : List Nat) :
    List (Nat × ℤ) :=
  (List.insertionSort simPairLE
    ((idx.entries.filter (fun e => !exclude.contains e.1)).map
      (fun e => (e.1, dot q e.2)))).take k

/-- Modelled from the spec: the Embedding Store embeds query text
deterministically and serves precomputed per-record vectors. -/
structure EmbedStore where
  embedText : String → Vec
  vectors : List (Nat × Vec)

/-- Modelled from the spec: `getVector(recordId)` returns the stored vector
or `NotFound` (here `none`). -/
def EmbedStore.getVector (s : EmbedStore) (i : Nat) : Option Vec :=
  (s.vectors.find? (fun e => e.1 == i)).map (fun e => e.2)

/-- Modelled from the spec: the out-of-scope relational record store, seen
by the search core only through per-record metadata (for post-hoc filters)
and an optional structural boost signal. -/
structure RecordStore where
  meta : Nat → List (String × String)
  boost : Nat → ℤ

/-- Modelled from the spec: the tuning parameters of a search run — maximum
expansion depth, maximum planner variants, `k` for similarity lookups, the
per-layer similarity floors τₙ, the layer-depth penalty of the scorer, and
the global candidate-count ceiling. -/
structure SearchConfig where
  maxDepth : Nat
  maxVariants : Nat
  topKCount : Nat
  floors : Nat → ℤ
  layerPenalty : ℤ
  maxCandidates : Nat

/-- Modelled from the spec: a Candidate discovered during expansion — a
record id, the discovery layer, and the best raw similarity observed across
discovery paths. -/
structure Candidate where
  id : Nat
  layer : Nat
  sim : ℤ
deriving DecidableEq, Repr

/-- The record ids of a candidate list. -/
def candIds (cs : List Candidate) : List Nat :=
  cs.map (fun c => c.id)

/-- Modelled from the spec: dedup-by-id fusion of one incoming candidate —
an already-present id keeps the minimum discovery layer and the maximum raw
similarity; a fresh id is appended. -/
def insertCand (cs : List Candidate) (c : Candidate) : List Candidate :=
  if cs.any (fun d => d.id == c.id) then
    cs.map (fun d =>
      if d.id == c.id then ⟨d.id, min d.layer c.layer, max d.sim c.sim⟩ else d)
  else cs ++ [c]

/-- Folds a batch of discovered candidates into an accumulator with
`insertCand`. -/
def mergeAll (acc news : List Candidate) : List Candidate :=
  news.foldl insertCand acc

/-- The candidate recorded for a given id, if any. -/
def findCand (cs : List Candidate) (i : Nat) : Option Candidate :=
  cs.find? (fun c => c.id == i)

/-- The whitespace-separated words of a query. -/
def queryWords (q : String) : List String :=
  (q.splitOn " ").filter (fun w => w != "")

/-- Modelled from the spec: the Query Planner's expansion signal — sub-topic
decomposition producing one sub-query per dropped word; a very short query
(at most two words) has no expansion signal and yields no variants. -/
def expansions (q : String) : List String :=
  let ws := queryWords q
  if ws.length ≤ 2 then []
  else (List.range ws.length).map (fun i => String.intercalate " " (ws.eraseIdx i))

/-- Removes duplicates keeping first occurrences, relative to an
already-seen set. -/
def dedupFirst (seen : List String) : List String → List String
  | [] => []
  | x :: xs => if x ∈ seen then dedupFirst seen xs else x :: dedupFirst (x :: seen) xs

/-- Modelled from the spec: `plan(userQuery, maxVariants)` — the original
query followed by its mutually distinct variants, truncated to
`maxVariants`. -/
def plan (q : String) (maxVariants : Nat) : List String :=
  (dedupFirst [] (q :: expansions q)).take maxVariants

/-- Modelled from the spec: layer 0 of the expansion engine — every planned
query is embedded and run against the index, and survivors of the floor τ₀
become Candidates at layer 0. -/
def seedCandidates (idx : SimIndex) (store : EmbedStore) (cfg : SearchConfig)
    (queries : List String) : List Candidate :=
  (queries.map (fun q =>
    ((idx.topK (store.embedText q) cfg.topKCount []).filter
        (fun rs => decide (cfg.floors 0 ≤ rs.2))).map
      (fun rs => (⟨rs.1, 0, rs.2⟩ : Candidate)))).flatten

/-- Modelled from the spec: the neighbors contributed by one frontier
candidate at layer `n` — its own vector is looked up (a missing vector drops
that candidate from further expansion) and run through `topK`, excluding
already-discovered ids; a neighbor survives when its similarity reaches the
floor τₙ. -/
def neighborCands (idx : SimIndex) (store : EmbedStore) (cfg : SearchConfig)
    (n : Nat) (excl : List Nat) (p : Candidate) : List Candidate :=
  match store.getVector p.id with
  | none => []
  | some v =>
    ((idx.topK v cfg.topKCount excl).filter
        (fun rs => decide (cfg.floors n ≤ rs.2))).map
      (fun rs => (⟨rs.1, n, rs.2⟩ : Candidate))

/-- Modelled from the spec: one expansion layer — the neighbors contributed
by all frontier candidates, with in-layer duplicates fused by
`insertCand`. -/
def layerNew (idx : SimIndex) (store : EmbedStore) (cfg : SearchConfig) (n : Nat)
    (discovered frontier : List Candidate) : List Candidate :=
  mergeAll []
    ((frontier.map (neighborCands idx store cfg n (candIds discovered))).flatten)

/-- Modelled from the spec: the layer loop of the expansion engine — halts
when the depth budget is exhausted, the global candidate ceiling is reached,
or a layer yields no new candidates; otherwise fuses the new layer into the
discovered set and recurses with the new layer as frontier. -/
def expandLayers (idx : SimIndex) (store : EmbedStore) (cfg : SearchConfig) :
    Nat → Nat → List Candidate → List Candidate → List Candidate
  | 0, _, discovered, _ => discovered
  | fuel + 1, n, discovered, frontier =>
    if cfg.maxCandidates ≤ discovered.length then discovered
    else if layerNew idx store cfg n discovered frontier = [] then discovered
    else
      expandLayers idx store cfg fuel (n + 1)
        (mergeAll discovered (layerNew idx store cfg n discovered frontier))
        (layerNew idx store cfg n discovered frontier)

/-- The deduplicated layer-0 candidate set. -/
def seedSet (idx : SimIndex) (store : EmbedStore) (cfg : SearchConfig)
    (queries : List String) : List Candidate :=
  mergeAll [] (seedCandidates idx store cfg queries)

/-- Modelled from the spec: the full Layered Expansion Engine — seed at
layer 0, then up to `maxDepth` further layers. -/
def expand (idx : SimIndex) (store : EmbedStore) (cfg : SearchConfig)
    (queries : List String) : List Candidate :=
  expandLayers idx store cfg cfg.maxDepth 1 (seedSet idx store cfg queries)
    (seedSet idx store cfg queries)

/-- Modelled from the spec: a ScoredResult — a candidate together with its
final relevance score. -/
structure ScoredResult where
  id : Nat
  layer : Nat
  score : ℤ
deriving DecidableEq, Repr

/-- Modelled from the spec: the relevance score — best raw similarity
discounted by a penalty proportional to the discovery depth, plus the
structural boost supplied by the record store. -/
def scoreCand (cfg : SearchConfig) (records : RecordStore) (c : Candidate) : ℤ :=
  c.sim - cfg.layerPenalty * (c.layer : ℤ) + records.boost c.id

/-- The final ranking order: descending score, ties broken by ascending
record id. -/
def RankLE (a b : ScoredResult) : Prop :=
  b.score < a.score ∨ (a.score = b.score ∧ a.id ≤ b.id)

instance : DecidableRel RankLE := fun a b => by
  unfold RankLE; infer_instance

instance : IsTotal ScoredResult RankLE where
  total a b := by
    unfold RankLE
    rcases lt_trichotomy a.score b.score with h | h | h
    · exact Or.inr (Or.inl h)
    · rcases Nat.le_total a.id b.id with hid | hid
      · exact Or.inl (Or.inr ⟨h, hid⟩)
      · exact Or.inr (Or.inr ⟨h.symm, hid⟩)
    · exact Or.inl (Or.inl h)

instance : IsTrans ScoredResult RankLE where
  trans a b c hab hbc := by
    unfold RankLE at *
    rcases hab with h1 | ⟨h1, h1'⟩ <;> rcases hbc with h2 | ⟨h2, h2'⟩
    · exact Or.inl (h2.trans h1)
    · exact Or.inl (h2 ▸ h1)
    · exact Or.inl (h1 ▸ h2)
    · exact Or.inr ⟨h1.trans h2, h1'.trans h2'⟩

/-- Modelled from the spec: the final ranking — sort by `RankLE` and
truncate to the caller's limit. -/
def rankResults (rs : List ScoredResult) (limit : Nat) : List ScoredResult :=
  (List.insertionSort RankLE rs).take limit

/-- Modelled from the spec: post-hoc filters — every filter key must be
matched by one of its allowed values in the record's metadata. -/
def passesFilters (records : RecordStore) (filters : List (String × List String))
    (i : Nat) : Bool :=
  filters.all (fun kv => kv.2.any (fun v => (records.meta i).contains (kv.1, v)))

/-- Modelled from the spec: the error taxonomy surfaced by the Search
Manager. -/
inductive SearchError where
  | invalidInput
  | upstreamUnavailable
deriving DecidableEq, Repr

/-- Modelled from the spec: the `{results, total}` JSON response shape. -/
structure SearchResponse where
  results : List ScoredResult
  total : Nat
deriving DecidableEq, Repr

/-- Modelled from the spec: the upstream dependencies of a search run; a
`none` component is unreachable. -/
structure Upstream where
  index : Option SimIndex
  store : Option EmbedStore

/-- Modelled from the spec: the scored, filtered candidate pool of a search
run — planner, expansion engine, post-hoc filters, scorer, in that order. -/
def searchScored (idx : SimIndex) (store : EmbedStore) (records : RecordStore)
    (cfg : SearchConfig) (query : String) (filters : List (String × List String)) :
    List ScoredResult :=
  ((expand idx store cfg (plan query cfg.maxVariants)).filter
      (fun c => passesFilters records filters c.id)).map
    (fun c => ⟨c.id, c.layer, scoreCand cfg records c⟩)

/-- Modelled from the spec: a query is empty after trimming exactly when it
consists of whitespace only. -/
def blankQuery (q : String) : Bool :=
  q.data.all Char.isWhitespace

/-- Modelled from the spec: the Search Manager — validates inputs, fails
with `upstreamUnavailable` when the Similarity Index or Embedding Store is
unreachable, and otherwise ranks the scored pool and returns at most `limit`
results with their count as `total`. -/
def search (up : Upstream) (records : RecordStore) (cfg : SearchConfig)
    (query : String) (filters : List (String × List String)) (limit : Nat) :
    Except SearchError SearchResponse :=
  if blankQuery query = true ∨ limit = 0 then .error .invalidInput
  else
    match up.index, up.store with
    | some idx, some store =>
      let ranked := rankResults (searchScored idx store records cfg query filters) limit
      .ok ⟨ranked, ranked.length⟩
    | _, _ => .error .upstreamUnavailable

/-- The Similarity Index with no entries. -/
def emptyIndex : SimIndex := ⟨[]⟩

/-! ## Theorems -/

/-- C9: for every non-empty authors list, `formatAuthors` joins the authors
with a comma-space when there are at most three, and joins the first three
followed by an `et al.` marker otherwise. -/
theorem C9_formatAuthors (authors : List String) (h : authors ≠ []) :
    (authors.length ≤ 3 → formatAuthors authors = String.intercalate ", " authors) ∧
      (3 < authors.length →
        formatAuthors authors =
          String.intercalate ", " (authors.take 3) ++ ", et al.") := by
  refine ⟨fun hl => ?_, fun hl => ?_⟩
  · rw [formatAuthors, if_pos hl]
  · rw [formatAuthors, if_neg (by omega)]

/-- Witness for C9 at a four-element author list. -/
theorem C9_formatAuthors_witness :
    (["Ada", "Bo", "Cy", "Dee"] : List String) ≠ [] ∧
      ((["Ada", "Bo", "Cy", "Dee"] : List String).length ≤ 3 →
        formatAuthors ["Ada", "Bo", "Cy", "Dee"] =
          String.intercalate ", " ["Ada", "Bo", "Cy", "Dee"]) ∧
      (3 < (["Ada", "Bo", "Cy", "Dee"] : List String).length →
        formatAuthors ["Ada", "Bo", "Cy", "Dee"] =
          String.intercalate ", " ((["Ada", "Bo", "Cy", "Dee"] : List String).take 3)
            ++ ", et al.") :=
  ⟨by decide, C9_formatAuthors ["Ada", "Bo", "Cy", "Dee"] (by decide)⟩

/-- C1 counterexample: the claim says the agent-search request body contains
both `query` and `limit`; at the concrete query shown, neither call site puts
a `limit` key in the body. -/
theorem C1_counterexample :
    ¬ ("limit" ∈ (searchPapersWithAgentRequest "graph neural networks").body.map Prod.fst ∧
       "limit" ∈ (searchDatasetsWithAgentRequest "graph neural networks").body.map Prod.fst) := by
  decide

/-- C1 (amended): the agent-search interface is invoked as
`POST /papers/search/agent` and `POST /datasets/search/agent` with a request
body containing `query` but no `limit`, and the caller consumes the
response's `results` field, deriving the displayed total from its length. -/
theorem C1_agent_requests (query : String) (results : List String) :
    (searchPapersWithAgentRequest query).method = "POST" ∧
      (searchPapersWithAgentRequest query).path = "/papers/search/agent" ∧
      (searchPapersWithAgentRequest query).body = [("query", query)] ∧
      "limit" ∉ (searchPapersWithAgentRequest query).body.map Prod.fst ∧
      (searchDatasetsWithAgentRequest query).method = "POST" ∧
      (searchDatasetsWithAgentRequest query).path = "/datasets/search/agent" ∧
      (searchDatasetsWithAgentRequest query).body = [("query", query)] ∧
      "limit" ∉ (searchDatasetsWithAgentRequest query).body.map Prod.fst ∧
      handleAgentSearchUpdate results = (results, results.length) := by
  refine ⟨rfl, rfl, rfl, ?_, rfl, rfl, rfl, ?_, rfl⟩ <;>
    simp [searchPapersWithAgentRequest, searchDatasetsWithAgentRequest]

/-- A string produced by `dedupFirst seen l` was not in `seen`. -/
theorem mem_dedupFirst_not_seen :
    ∀ (l seen : List String) (x : String), x ∈ dedupFirst seen l → x ∉ seen
  | [], _, x, hx => by simp [dedupFirst] at hx
  | y :: ys, seen, x, hx => by
    by_cases hy : y ∈ seen
    · rw [dedupFirst, if_pos hy] at hx
      exact mem_dedupFirst_not_seen ys seen x hx
    · rw [dedupFirst, if_neg hy] at hx
      rcases List.mem_cons.mp hx with rfl | hx'
      · exact hy
      · intro hxseen
        exact mem_dedupFirst_not_seen ys (y :: seen) x hx'
          (List.mem_cons_of_mem _ hxseen)

/-- `dedupFirst` returns a duplicate-free list. -/
theorem dedupFirst_nodup : ∀ (l seen : List String), (dedupFirst seen l).Nodup
  | [], _ => by simp [dedupFirst]
  | y :: ys, seen => by
    by_cases hy : y ∈ seen
    · rw [dedupFirst, if_pos hy]
      exact dedupFirst_nodup ys seen
    · rw [dedupFirst, if_neg hy]
      refine List.nodup_cons.mpr ⟨fun hmem => ?_, dedupFirst_nodup ys (y :: seen)⟩
      exact mem_dedupFirst_not_seen ys (y :: seen) y hmem (List.mem_cons_self y seen)

/-- C6: for every query and `maxVariants ≥ 1`, the planner returns between 1
and `maxVariants` queries, mutually distinct, and exactly `[originalQuery]`
when the query has no expansion signal. -/
theorem C6_plan (q : String) (mv : Nat) (h : 1 ≤ mv) :
    1 ≤ (plan q mv).length ∧ (plan q mv).length ≤ mv ∧ (plan q mv).Nodup ∧
      (expansions q = [] → plan q mv = [q]) := by
  obtain ⟨m, rfl⟩ : ∃ m, mv = m + 1 := ⟨mv - 1, by omega⟩
  have hhead : dedupFirst [] (q :: expansions q) =
      q :: dedupFirst [q] (expansions q) := by
    rw [dedupFirst, if_neg (List.not_mem_nil q)]
  refine ⟨?_, ?_, ?_, fun he => ?_⟩
  · rw [plan, hhead, List.take_succ_cons]
    simp
  · exact List.length_take_le _ _
  · exact (List.take_sublist _ _).nodup (dedupFirst_nodup _ _)
  · rw [plan, he]
    simp [dedupFirst]

/-- Witness for C6 at the two-word query `"hi there"`, which has no
expansion signal, with `maxVariants = 1`. -/
theorem C6_plan_witness :
    1 ≤ 1 ∧ (1 ≤ (plan "hi there" 1).length ∧ (plan "hi there" 1).length ≤ 1 ∧
      (plan "hi there" 1).Nodup ∧
      (expansions "hi there" = [] → plan "hi there" 1 = ["hi there"])) :=
  ⟨le_refl 1, C6_plan "hi there" 1 (le_refl 1)⟩

/-- `topK` over the empty index returns the empty list. -/
theorem emptyIndex_topK (v : Vec) (k : Nat) (excl : List Nat) :
    emptyIndex.topK v k excl = [] := by
  simp [emptyIndex, SimIndex.topK]

/-- The layer loop leaves an empty discovered set empty when the frontier is
empty. -/
theorem expandLayers_nil (idx : SimIndex) (store : EmbedStore) (cfg : SearchConfig)
    (fuel n : Nat) : expandLayers idx store cfg fuel n [] [] = [] := by
  cases fuel with
  | zero => rfl
  | succ m =>
    rw [expandLayers]
    split
    · rfl
    · split
      · rfl
      · rename_i hne
        exact absurd rfl hne

/-- Seeding over the empty index yields no candidates. -/
theorem seedCandidates_emptyIndex (store : EmbedStore) (cfg : SearchConfig)
    (queries : List String) : seedCandidates emptyIndex store cfg queries = [] := by
  simp [seedCandidates, emptyIndex_topK]

/-- The scored pool over the empty index is empty. -/
theorem searchScored_emptyIndex (store : EmbedStore) (records : RecordStore)
    (cfg : SearchConfig) (q : String) (filters : List (String × List String)) :
    searchScored emptyIndex store records cfg q filters = [] := by
  have hseed : seedSet emptyIndex store cfg (plan q cfg.maxVariants) = [] := by
    rw [seedSet, seedCandidates_emptyIndex]
    rfl
  rw [searchScored, expand, hseed, expandLayers_nil]
  rfl

/-- C7: with a reachable but empty Similarity Index — and more generally
whenever the pipeline produces zero scored candidates — `search` returns the
successful empty response `{results := [], total := 0}` rather than an
error, and `topK` over the empty index degrades to the empty list. -/
theorem C7_empty_graceful (store : EmbedStore) (records : RecordStore)
    (cfg : SearchConfig) (q : String) (filters : List (String × List String))
    (limit : Nat) (hq : ¬ blankQuery q = true) (hl : limit ≠ 0) :
    search ⟨some emptyIndex, some store⟩ records cfg q filters limit =
        .ok ⟨[], 0⟩ ∧
      (∀ (v : Vec) (k : Nat) (excl : List Nat), emptyIndex.topK v k excl = []) ∧
      (∀ idx : SimIndex, searchScored idx store records cfg q filters = [] →
        search ⟨some idx, some store⟩ records cfg q filters limit = .ok ⟨[], 0⟩) := by
  have hcond : ¬ (blankQuery q = true ∨ limit = 0) := by
    intro hor
    rcases hor with h | h
    · exact hq h
    · exact hl h
  have hgen : ∀ idx : SimIndex, searchScored idx store records cfg q filters = [] →
      search ⟨some idx, some store⟩ records cfg q filters limit = .ok ⟨[], 0⟩ := by
    intro idx hzero
    rw [search, if_neg hcond]
    dsimp only
    rw [hzero]
    simp [rankResults]
  exact ⟨hgen emptyIndex (searchScored_emptyIndex store records cfg q filters),
    emptyIndex_topK, hgen⟩

/-- Witness for C7 at a concrete store, configuration and query. -/
theorem C7_empty_graceful_witness :
    ¬ blankQuery "q" = true ∧ (5 : Nat) ≠ 0 ∧
      search ⟨some emptyIndex, some ⟨fun _ => [1], [(1, [1])]⟩⟩
          ⟨fun _ => [], fun _ => 0⟩ ⟨2, 1, 10, fun _ => 0, 1, 100⟩ "q" [] 5 =
        .ok ⟨[], 0⟩ :=
  ⟨by decide, by decide,
    (C7_empty_graceful ⟨fun _ => [1], [(1, [1])]⟩ ⟨fun _ => [], fun _ => 0⟩
      ⟨2, 1, 10, fun _ => 0, 1, 100⟩ "q" [] 5 (by decide) (by decide)).1⟩

/-- C8: with valid inputs and an unreachable Similarity Index or Embedding
Store, `search` fails with `upstreamUnavailable`, an outcome distinct from
every successful response (in particular from the successful empty one). -/
theorem C8_upstream_unavailable (up : Upstream) (records : RecordStore)
    (cfg : SearchConfig) (q : String) (filters : List (String × List String))
    (limit : Nat) (hq : ¬ blankQuery q = true) (hl : limit ≠ 0)
    (hup : up.index = none ∨ up.store = none) :
    search up records cfg q filters limit = .error .upstreamUnavailable ∧
      ∀ resp : SearchResponse, search up records cfg q filters limit ≠ .ok resp := by
  obtain ⟨i, s⟩ := up
  have hcond : ¬ (blankQuery q = true ∨ limit = 0) := by
    intro hor
    rcases hor with h | h
    · exact hq h
    · exact hl h
  have herr : search ⟨i, s⟩ records cfg q filters limit = .error .upstreamUnavailable := by
    rw [search, if_neg hcond]
    rcases hup with h | h
    · simp only at h
      subst h
      cases s <;> rfl
    · simp only at h
      subst h
      cases i <;> rfl
  refine ⟨herr, fun resp hok => ?_⟩
  rw [herr] at hok
  exact Except.noConfusion hok

/-- `insertCand` keeps the id list unchanged when the incoming id is already
present. -/
theorem candIds_insertCand_of_mem (cs : List Candidate) (c : Candidate)
    (h : cs.any (fun d => d.id == c.id) = true) :
    candIds (insertCand cs c) = candIds cs := by
  rw [insertCand, if_pos h, candIds, candIds, List.map_map]
  congr 1
  funext d
  by_cases hd : d.id = c.id
  · simp [hd]
  · simp [hd]

/-- `insertCand` appends the incoming id when it is fresh. -/
theorem candIds_insertCand_of_not_mem (cs : List Candidate) (c : Candidate)
    (h : ¬ cs.any (fun d => d.id == c.id) = true) :
    candIds (insertCand cs c) = candIds cs ++ [c.id] := by
  rw [insertCand, if_neg h, candIds, candIds, List.map_append]
  rfl

/-- The id set of `insertCand cs c` is that of `cs` together with `c.id`. -/
theorem mem_candIds_insertCand (cs : List Candidate) (c : Candidate) (i : Nat) :
    i ∈ candIds (insertCand cs c) ↔ i ∈ candIds cs ∨ i = c.id := by
  by_cases h : cs.any (fun d => d.id == c.id) = true
  · rw [candIds_insertCand_of_mem cs c h]
    refine ⟨Or.inl, fun hi => ?_⟩
    rcases hi with hi | rfl
    · exact hi
    · rcases List.any_eq_true.mp h with ⟨d, hd, hdi⟩
      have hdi' : d.id = c.id := by simpa using hdi
      exact hdi' ▸ List.mem_map_of_mem _ hd
  · rw [candIds_insertCand_of_not_mem cs c h]
    simp

/-- `insertCand` preserves duplicate-freedom of the id list. -/
theorem nodup_candIds_insertCand {cs : List Candidate} {c : Candidate}
    (h : (candIds cs).Nodup) : (candIds (insertCand cs c)).Nodup := by
  by_cases hany : cs.any (fun d => d.id == c.id) = true
  · rwa [candIds_insertCand_of_mem cs c hany]
  · rw [candIds_insertCand_of_not_mem cs c hany]
    have hc : c.id ∉ candIds cs := by
      intro hmem
      rcases List.mem_map.mp hmem with ⟨d, hd, hdi⟩
      exact hany (List.any_eq_true.mpr ⟨d, hd, by simp [hdi]⟩)
    simp [List.nodup_append, h, hc]

/-- `insertCand` preserves any property of candidates that is closed under
the min-layer/max-similarity fusion. -/
theorem insertCand_pred {P : Candidate → Prop}
    (hP : ∀ d c : Candidate, P d → P c →
      P ⟨d.id, min d.layer c.layer, max d.sim c.sim⟩)
    {cs : List Candidate} {c : Candidate}
    (hcs : ∀ d ∈ cs, P d) (hc : P c) : ∀ d ∈ insertCand cs c, P d := by
  intro d hd
  rw [insertCand] at hd
  split at hd
  · rcases List.mem_map.mp hd with ⟨e, he, rfl⟩
    split
    · exact hP e c (hcs e he) hc
    · exact hcs e he
  · rcases List.mem_append.mp hd with he | he
    · exact hcs d he
    · rw [List.mem_singleton.mp he]
      exact hc

/-- The id set of `mergeAll acc news` is the union of the two id sets. -/
theorem mem_candIds_mergeAll :
    ∀ (news acc : List Candidate) (i : Nat),
      i ∈ candIds (mergeAll acc news) ↔ i ∈ candIds acc ∨ i ∈ candIds news
  | [], acc, i => by simp [mergeAll, candIds]
  | c :: cs, acc, i => by
    have hstep : mergeAll acc (c :: cs) = mergeAll (insertCand acc c) cs := rfl
    rw [hstep, mem_candIds_mergeAll cs _ i, mem_candIds_insertCand]
    have : candIds (c :: cs) = c.id :: candIds cs := rfl
    rw [this, List.mem_cons]
    tauto

/-- `mergeAll` preserves duplicate-freedom of the accumulator's id list. -/
theorem nodup_candIds_mergeAll :
    ∀ (news acc : List Candidate), (candIds acc).Nodup →
      (candIds (mergeAll acc news)).Nodup
  | [], _, h => h
  | c :: cs, acc, h => nodup_candIds_mergeAll cs (insertCand acc c)
      (nodup_candIds_insertCand h)

/-- `mergeAll` preserves any fusion-closed property of candidates. -/
theorem mergeAll_pred {P : Candidate → Prop}
    (hP : ∀ d c : Candidate, P d → P c →
      P ⟨d.id, min d.layer c.layer, max d.sim c.sim⟩) :
    ∀ (news acc : List Candidate), (∀ d ∈ acc, P d) → (∀ d ∈ news, P d) →
      ∀ d ∈ mergeAll acc news, P d
  | [], _, ha, _, d, hd => ha d hd
  | c :: cs, acc, ha, hn, d, hd =>
    mergeAll_pred hP cs (insertCand acc c)
      (insertCand_pred hP ha (hn c (List.mem_cons_self c cs)))
      (fun e he => hn e (List.mem_cons_of_mem c he)) d hd

/-- Witness for C8 with an unreachable index. -/
theorem C8_upstream_unavailable_witness :
    ¬ blankQuery "q" = true ∧ (5 : Nat) ≠ 0 ∧
      ((⟨none, some ⟨fun _ => [1], [(1, [1])]⟩⟩ : Upstream).index = none ∨
        (⟨none, some ⟨fun _ => [1], [(1, [1])]⟩⟩ : Upstream).store = none) ∧
      search ⟨none, some ⟨fun _ => [1], [(1, [1])]⟩⟩ ⟨fun _ => [], fun _ => 0⟩
          ⟨2, 1, 10, fun _ => 0, 1, 100⟩ "q" [] 5 =
        .error .upstreamUnavailable :=
  ⟨by decide, by decide, Or.inl rfl,
    (C8_upstream_unavailable ⟨none, some ⟨fun _ => [1], [(1, [1])]⟩⟩
      ⟨fun _ => [], fun _ => 0⟩ ⟨2, 1, 10, fun _ => 0, 1, 100⟩ "q" [] 5
      (by decide) (by decide) (Or.inl rfl)).1⟩

/-- A pair returned by `topK` never carries an excluded id. -/
theorem topK_not_mem_exclude {idx : SimIndex} {q : Vec} {k : Nat}
    {exclude : List Nat} {i : Nat} {s : ℤ}
    (h : (i, s) ∈ idx.topK q k exclude) : i ∉ exclude := by
  rw [SimIndex.topK] at h
  have h1 := List.mem_of_mem_take h
  have h2 : (i, s) ∈ (idx.entries.filter (fun e => !exclude.contains e.1)).map
      (fun e => (e.1, dot q e.2)) :=
    (List.perm_insertionSort simPairLE _).subset h1
  rcases List.mem_map.mp h2 with ⟨e, he, heq⟩
  have he1 : e.1 = i := congrArg Prod.fst heq
  have hef := (List.mem_filter.mp he).2
  rw [he1] at hef
  simpa using hef

/-- Every seed candidate is recorded at layer 0. -/
theorem seedCandidates_layer (idx : SimIndex) (store : EmbedStore)
    (cfg : SearchConfig) (queries : List String) :
    ∀ c ∈ seedCandidates idx store cfg queries, c.layer = 0 := by
  intro c hc
  rw [seedCandidates] at hc
  rcases List.mem_flatten.mp hc with ⟨l, hl, hcl⟩
  rcases List.mem_map.mp hl with ⟨q, _, rfl⟩
  rcases List.mem_map.mp hcl with ⟨rs, _, rfl⟩
  rfl

/-- Every neighbor contributed at layer `n` is recorded at layer `n`. -/
theorem neighborCands_layer (idx : SimIndex) (store : EmbedStore)
    (cfg : SearchConfig) (n : Nat) (excl : List Nat) (p : Candidate) :
    ∀ c ∈ neighborCands idx store cfg n excl p, c.layer = n := by
  intro c hc
  rw [neighborCands] at hc
  rcases hv : store.getVector p.id with _ | v
  · rw [hv] at hc
    simp at hc
  · rw [hv] at hc
    rcases List.mem_map.mp hc with ⟨rs, _, rfl⟩
    rfl

/-- Id-membership in the neighbor batch of one frontier candidate. -/
theorem mem_candIds_neighborCands (idx : SimIndex) (store : EmbedStore)
    (cfg : SearchConfig) (n : Nat) (excl : List Nat) (p : Candidate) (i : Nat) :
    i ∈ candIds (neighborCands idx store cfg n excl p) ↔
      ∃ v, store.getVector p.id = some v ∧
        ∃ s, (i, s) ∈ idx.topK v cfg.topKCount excl ∧ cfg.floors n ≤ s := by
  rw [neighborCands]
  rcases hv : store.getVector p.id with _ | v
  · simp [candIds]
  · simp only [candIds, List.map_map, List.mem_map, List.mem_filter,
      Option.some.injEq]
    constructor
    · rintro ⟨rs, ⟨hmem, hfloor⟩, rfl⟩
      refine ⟨v, rfl, rs.2, ?_, by simpa using hfloor⟩
      simpa using hmem
    · rintro ⟨v', hv', s, hmem, hfloor⟩
      subst hv'
      exact ⟨(i, s), ⟨hmem, by simpa using hfloor⟩, rfl⟩

/-- Id-membership in one whole expansion layer: an id is newly discovered at
layer `n` exactly when some frontier candidate's `topK` lookup (excluding
already-discovered ids) returns it with similarity at least τₙ. -/
theorem mem_candIds_layerNew (idx : SimIndex) (store : EmbedStore)
    (cfg : SearchConfig) (n : Nat) (discovered frontier : List Candidate)
    (i : Nat) :
    i ∈ candIds (layerNew idx store cfg n discovered frontier) ↔
      ∃ p ∈ frontier, ∃ v, store.getVector p.id = some v ∧
        ∃ s, (i, s) ∈ idx.topK v cfg.topKCount (candIds discovered) ∧
          cfg.floors n ≤ s := by
  rw [layerNew, mem_candIds_mergeAll]
  constructor
  · rintro (hnil | hmem)
    · simp [candIds] at hnil
    · rcases List.mem_map.mp hmem with ⟨c, hc, rfl⟩
      rcases List.mem_flatten.mp hc with ⟨l, hl, hcl⟩
      rcases List.mem_map.mp hl with ⟨p, hp, rfl⟩
      refine ⟨p, hp, ?_⟩
      exact (mem_candIds_neighborCands idx store cfg n _ p c.id).mp
        (List.mem_map_of_mem _ hcl)
  · rintro ⟨p, hp, hrest⟩
    right
    have hmem := (mem_candIds_neighborCands idx store cfg n
      (candIds discovered) p i).mpr hrest
    rcases List.mem_map.mp hmem with ⟨c, hc, rfl⟩
    apply List.mem_map_of_mem
    exact List.mem_flatten.mpr ⟨neighborCands idx store cfg n (candIds discovered) p,
      List.mem_map_of_mem _ hp, hc⟩

/-- Every candidate of one expansion layer is recorded at layer `n`. -/
theorem layerNew_layer (idx : SimIndex) (store : EmbedStore)
    (cfg : SearchConfig) (n : Nat) (discovered frontier : List Candidate) :
    ∀ c ∈ layerNew idx store cfg n discovered frontier, c.layer = n := by
  apply mergeAll_pred (P := fun c => c.layer = n)
  · intro d c hd hc
    simp [hd, hc]
  · intro d hd
    simp [candIds] at hd
  · intro d hd
    rcases List.mem_flatten.mp hd with ⟨l, hl, hdl⟩
    rcases List.mem_map.mp hl with ⟨p, _, rfl⟩
    exact neighborCands_layer idx store cfg n _ p d hdl

/-- The layer loop preserves any layer bound that covers the remaining depth
budget. -/
theorem expandLayers_layer_le (idx : SimIndex) (store : EmbedStore)
    (cfg : SearchConfig) :
    ∀ (fuel n : Nat) (discovered frontier : List Candidate),
      n + fuel ≤ cfg.maxDepth + 1 →
      (∀ c ∈ discovered, c.layer ≤ cfg.maxDepth) →
      ∀ c ∈ expandLayers idx store cfg fuel n discovered frontier,
        c.layer ≤ cfg.maxDepth
  | 0, _, _, _, _, hd => hd
  | fuel + 1, n, discovered, frontier, hn, hd => by
    rw [expandLayers]
    split
    · exact hd
    · split
      · exact hd
      · apply expandLayers_layer_le idx store cfg fuel (n + 1) _ _ (by omega)
        apply mergeAll_pred (P := fun c => c.layer ≤ cfg.maxDepth)
        · intro d c hdc hc
          simp only
          omega
        · exact hd
        · intro c hc
          have := layerNew_layer idx store cfg n discovered frontier c hc
          omega

/-- The layer loop preserves duplicate-freedom of the discovered id list. -/
theorem expandLayers_nodup (idx : SimIndex) (store : EmbedStore)
    (cfg : SearchConfig) :
    ∀ (fuel n : Nat) (discovered frontier : List Candidate),
      (candIds discovered).Nodup →
      (candIds (expandLayers idx store cfg fuel n discovered frontier)).Nodup
  | 0, _, _, _, h => h
  | fuel + 1, n, discovered, frontier, h => by
    rw [expandLayers]
    split
    · exact h
    · split
      · exact h
      · exact expandLayers_nodup idx store cfg fuel (n + 1) _ _
          (nodup_candIds_mergeAll _ _ h)

/-- Every candidate produced by the expansion engine sits at a layer within
the configured maximum depth. -/
theorem expand_layer_le (idx : SimIndex) (store : EmbedStore)
    (cfg : SearchConfig) (queries : List String) :
    ∀ c ∈ expand idx store cfg queries, c.layer ≤ cfg.maxDepth := by
  rw [expand]
  apply expandLayers_layer_le idx store cfg cfg.maxDepth 1 _ _ (by omega)
  apply mergeAll_pred (P := fun c => c.layer ≤ cfg.maxDepth)
  · intro d c hdc hc
    simp only
    omega
  · intro d hd
    simp [candIds] at hd
  · intro c hc
    rw [seedCandidates_layer idx store cfg queries c hc]
    exact Nat.zero_le _

/-- The expansion engine's discovered id list is duplicate-free. -/
theorem expand_nodup (idx : SimIndex) (store : EmbedStore)
    (cfg : SearchConfig) (queries : List String) :
    (candIds (expand idx store cfg queries)).Nodup := by
  rw [expand]
  apply expandLayers_nodup
  apply nodup_candIds_mergeAll
  simp [candIds]

/-- The record ids of a scored-result list. -/
def resIds (rs : List ScoredResult) : List Nat :=
  rs.map (fun r => r.id)

/-- A successful search response is the ranked, truncated scored pool with
its length as `total`. -/
theorem search_ok_elim {idx : SimIndex} {store : EmbedStore}
    {records : RecordStore} {cfg : SearchConfig} {q : String}
    {filters : List (String × List String)} {lim : Nat} {resp : SearchResponse}
    (h : search ⟨some idx, some store⟩ records cfg q filters lim = .ok resp) :
    resp.results = rankResults (searchScored idx store records cfg q filters) lim := by
  by_cases hcond : blankQuery q = true ∨ lim = 0
  · rw [search, if_pos hcond] at h
    exact absurd h (by simp)
  · rw [search, if_neg hcond] at h
    dsimp only at h
    injection h with h'
    rw [← h']

/-- Every scored result arises from a candidate of the expansion. -/
theorem mem_searchScored {idx : SimIndex} {store : EmbedStore}
    {records : RecordStore} {cfg : SearchConfig} {q : String}
    {filters : List (String × List String)} {r : ScoredResult}
    (hr : r ∈ searchScored idx store records cfg q filters) :
    ∃ c ∈ expand idx store cfg (plan q cfg.maxVariants),
      r.id = c.id ∧ r.layer = c.layer := by
  rw [searchScored] at hr
  rcases List.mem_map.mp hr with ⟨c, hc, rfl⟩
  exact ⟨c, (List.mem_filter.mp hc).1, rfl, rfl⟩

/-- The scored pool carries no duplicate record ids. -/
theorem nodup_resIds_searchScored (idx : SimIndex) (store : EmbedStore)
    (records : RecordStore) (cfg : SearchConfig) (q : String)
    (filters : List (String × List String)) :
    (resIds (searchScored idx store records cfg q filters)).Nodup := by
  rw [searchScored, resIds, List.map_map]
  have hfn : ((fun r : ScoredResult => r.id) ∘
      fun c : Candidate => (⟨c.id, c.layer, scoreCand cfg records c⟩ : ScoredResult)) =
      fun c : Candidate => c.id := rfl
  rw [hfn]
  exact ((List.filter_sublist _).map _).nodup
    (expand_nodup idx store cfg (plan q cfg.maxVariants))

/-- Every ranked result belongs to the scored pool. -/
theorem mem_rankResults {r : ScoredResult} {rs : List ScoredResult} {lim : Nat}
    (h : r ∈ rankResults rs lim) : r ∈ rs := by
  rw [rankResults] at h
  exact (List.perm_insertionSort RankLE rs).subset (List.mem_of_mem_take h)

/-- C4: every result of a successful search run sits at a discovery layer
within the configured maximum expansion depth. -/
theorem C4_layer_bound (idx : SimIndex) (store : EmbedStore)
    (records : RecordStore) (cfg : SearchConfig) (q : String)
    (filters : List (String × List String)) (lim : Nat) (resp : SearchResponse)
    (h : search ⟨some idx, some store⟩ records cfg q filters lim = .ok resp) :
    ∀ r ∈ resp.results, r.layer ≤ cfg.maxDepth := by
  intro r hr
  rw [search_ok_elim h] at hr
  rcases mem_searchScored (mem_rankResults hr) with ⟨c, hc, _, hlay⟩
  rw [hlay]
  exact expand_layer_le idx store cfg _ c hc

/-- C2: the results of a successful search run are sorted by descending
score with ties broken by ascending record id, number at most `limit`, and
are exactly the top `limit` of the ranked scored pool — every returned
result ranks at least as high as every candidate the truncation dropped. -/
theorem C2_ranking (idx : SimIndex) (store : EmbedStore)
    (records : RecordStore) (cfg : SearchConfig) (q : String)
    (filters : List (String × List String)) (lim : Nat) (resp : SearchResponse)
    (h : search ⟨some idx, some store⟩ records cfg q filters lim = .ok resp) :
    resp.results.Pairwise RankLE ∧
      resp.results.length ≤ lim ∧
      resp.results =
        (List.insertionSort RankLE
          (searchScored idx store records cfg q filters)).take lim ∧
      (lim ≤ (searchScored idx store records cfg q filters).length →
        resp.results.length = lim) ∧
      ∀ r ∈ resp.results,
        ∀ s ∈ (List.insertionSort RankLE
          (searchScored idx store records cfg q filters)).drop lim,
          RankLE r s := by
  have heq := search_ok_elim h
  rw [rankResults] at heq
  refine ⟨?_, ?_, heq, ?_, ?_⟩
  · rw [heq]
    exact (List.sorted_insertionSort RankLE _).sublist (List.take_sublist _ _)
  · rw [heq]
    exact List.length_take_le _ _
  · intro hlen
    rw [heq, List.length_take]
    have : (List.insertionSort RankLE
        (searchScored idx store records cfg q filters)).length =
        (searchScored idx store records cfg q filters).length :=
      (List.perm_insertionSort RankLE _).length_eq
    omega
  · intro r hr s hs
    rw [heq] at hr
    exact (List.sorted_insertionSort RankLE _).rel_of_mem_take_of_mem_drop hr hs

/-- The entry recorded for an id after fusing a duplicate keeps the minimum
layer and the maximum similarity. -/
theorem findCand_insertCand :
    ∀ (cs : List Candidate) (c old : Candidate),
      findCand cs c.id = some old →
      findCand (insertCand cs c) c.id =
        some ⟨c.id, min old.layer c.layer, max old.sim c.sim⟩
  | [], c, old, h => by simp [findCand] at h
  | d :: ds, c, old, h => by
    have h0 : (d :: ds).find? (fun e => e.id == c.id) = some old := h
    have hmem : old ∈ d :: ds := List.mem_of_find?_eq_some h0
    have hp := List.find?_some h0
    have hany : (d :: ds).any (fun e => e.id == c.id) = true :=
      List.any_eq_true.mpr ⟨old, hmem, hp⟩
    rw [insertCand, if_pos hany]
    by_cases hd : (d.id == c.id) = true
    · have hold : old = d := by
        rw [findCand] at h
        rw [@List.find?_cons_of_pos _ (fun e => e.id == c.id) d ds hd] at h
        exact (Option.some.inj h).symm
      rw [hold]
      have hid : d.id = c.id := by simpa using hd
      rw [findCand, List.map_cons, if_pos hd]
      rw [@List.find?_cons_of_pos _ (fun e => e.id == c.id)
        (⟨d.id, min d.layer c.layer, max d.sim c.sim⟩ : Candidate)
        (List.map _ ds) (by simpa using hd)]
      rw [hid]
    · have h' : findCand ds c.id = some old := by
        rw [findCand] at h
        rw [@List.find?_cons_of_neg _ (fun e => e.id == c.id) d ds hd] at h
        exact h
      have hany2 : ds.any (fun e => e.id == c.id) = true := by
        rcases List.any_eq_true.mp hany with ⟨e, he, hpe⟩
        rcases List.mem_cons.mp he with rfl | he'
        · exact absurd hpe hd
        · exact List.any_eq_true.mpr ⟨e, he', hpe⟩
      have IH := findCand_insertCand ds c old h'
      rw [insertCand, if_pos hany2] at IH
      rw [findCand] at IH ⊢
      rw [List.map_cons, if_neg hd]
      rw [@List.find?_cons_of_neg _ (fun e => e.id == c.id) d (List.map _ ds) hd]
      exact IH

/-- C3: no successful search run returns two results with the same record
id, and fusing a rediscovered id keeps the minimum discovery layer and the
maximum raw similarity observed. -/
theorem C3_dedup :
    (∀ (idx : SimIndex) (store : EmbedStore) (records : RecordStore)
        (cfg : SearchConfig) (q : String) (filters : List (String × List String))
        (lim : Nat) (resp : SearchResponse),
      search ⟨some idx, some store⟩ records cfg q filters lim = .ok resp →
      resp.results.Pairwise (fun a b => a.id ≠ b.id)) ∧
    (∀ (cs : List Candidate) (c old : Candidate),
      findCand cs c.id = some old →
      findCand (insertCand cs c) c.id =
        some ⟨c.id, min old.layer c.layer, max old.sim c.sim⟩) := by
  refine ⟨?_, findCand_insertCand⟩
  intro idx store records cfg q filters lim resp h
  rw [search_ok_elim h, rankResults]
  have hnodup : (resIds (List.insertionSort RankLE
      (searchScored idx store records cfg q filters))).Nodup := by
    rw [resIds]
    exact ((List.perm_insertionSort RankLE _).map _).nodup_iff.mpr
      (nodup_resIds_searchScored idx store records cfg q filters)
  have htake : (resIds ((List.insertionSort RankLE
      (searchScored idx store records cfg q filters)).take lim)).Nodup := by
    rw [resIds]
    exact ((List.take_sublist _ _).map _).nodup hnodup
  rw [resIds] at htake
  exact (List.pairwise_map.mp htake)

/-- C5: during layered expansion at layer `n` (1 ≤ n ≤ maxDepth), a record
id is admitted as a new Candidate exactly when some surviving layer n−1
candidate's `topK` lookup — which excludes already-discovered ids — returns
it with similarity at least the per-layer floor τₙ; an admitted id was in
particular not already discovered. -/
theorem C5_layer_admission (idx : SimIndex) (store : EmbedStore)
    (cfg : SearchConfig) (n : Nat) (discovered frontier : List Candidate)
    (i : Nat) (hn1 : 1 ≤ n) (hn2 : n ≤ cfg.maxDepth) :
    (i ∈ candIds (layerNew idx store cfg n discovered frontier) ↔
      ∃ p ∈ frontier, ∃ v, store.getVector p.id = some v ∧
        ∃ s, (i, s) ∈ idx.topK v cfg.topKCount (candIds discovered) ∧
          cfg.floors n ≤ s) ∧
      (i ∈ candIds (layerNew idx store cfg n discovered frontier) →
        i ∉ candIds discovered) := by
  refine ⟨mem_candIds_layerNew idx store cfg n discovered frontier i,
    fun hi => ?_⟩
  rcases (mem_candIds_layerNew idx store cfg n discovered frontier i).mp hi with
    ⟨p, _, v, _, s, hmem, _⟩
  exact topK_not_mem_exclude hmem

/-- A concrete Similarity Index realising the spec's expansion scenario:
records A=1, B=2, C=3 match the seed query at (scaled) similarities 90, 80,
75; D=4 is a neighbor of B at similarity 80; E=5 is a neighbor of C at
similarity 72. -/
def sIdx : SimIndex :=
  ⟨[(1, [90, 0, 0]), (2, [80, 1, 0]), (3, [75, 0, 1]),
    (4, [0, 80, 0]), (5, [0, 0, 72])]⟩

/-- The matching Embedding Store: the seed query embeds to `[1, 0, 0]` and
every record's own vector is stored. -/
def sStore : EmbedStore :=
  ⟨fun _ => [1, 0, 0],
    [(1, [90, 0, 0]), (2, [80, 1, 0]), (3, [75, 0, 1]),
      (4, [0, 80, 0]), (5, [0, 0, 72])]⟩

/-- The scenario configuration: `maxDepth = 2`, floors τ₀ = 70 and
τₙ = 75 for n ≥ 1, layer penalty 30, generous `k` and ceiling. -/
def sCfg : SearchConfig :=
  ⟨2, 1, 10, fun n => if n = 0 then 70 else 75, 30, 100⟩

/-- A record store with no metadata and no structural boost. -/
def sRecords : RecordStore := ⟨fun _ => [], fun _ => 0⟩

/-- The layer-0 candidate set of the scenario: A, B, C above τ₀. -/
def sSeeds : List Candidate := [⟨1, 0, 90⟩, ⟨2, 0, 80⟩, ⟨3, 0, 75⟩]

/-- The scenario's final ranked results: A, B, C at layer 0 and D at
layer 1 (similarity 80 discounted by one layer's penalty); E stays out
because 72 < τ₁ = 75. -/
def sResults : List ScoredResult :=
  [⟨1, 0, 90⟩, ⟨2, 0, 80⟩, ⟨3, 0, 75⟩, ⟨4, 1, 50⟩]

/-- Witness for C2 on the concrete scenario search. -/
theorem C2_ranking_witness :
    search ⟨some sIdx, some sStore⟩ sRecords sCfg "graph neural networks" [] 5 =
        .ok ⟨sResults, 4⟩ ∧
      (sResults.Pairwise RankLE ∧ sResults.length ≤ 5 ∧
        sResults = (List.insertionSort RankLE
          (searchScored sIdx sStore sRecords sCfg "graph neural networks" [])).take 5 ∧
        (5 ≤ (searchScored sIdx sStore sRecords sCfg "graph neural networks" []).length →
          sResults.length = 5) ∧
        ∀ r ∈ sResults, ∀ s ∈ (List.insertionSort RankLE
          (searchScored sIdx sStore sRecords sCfg "graph neural networks" [])).drop 5,
          RankLE r s) :=
  ⟨rfl, C2_ranking sIdx sStore sRecords sCfg "graph neural networks" [] 5
    ⟨sResults, 4⟩ rfl⟩

/-- Witness for C3 on the concrete scenario search and a concrete duplicate
fusion. -/
theorem C3_dedup_witness :
    search ⟨some sIdx, some sStore⟩ sRecords sCfg "graph neural networks" [] 5 =
        .ok ⟨sResults, 4⟩ ∧
      sResults.Pairwise (fun a b => a.id ≠ b.id) ∧
      findCand [⟨7, 2, 40⟩] 7 = some ⟨7, 2, 40⟩ ∧
      findCand (insertCand [⟨7, 2, 40⟩] ⟨7, 1, 60⟩) 7 = some ⟨7, 1, 60⟩ :=
  ⟨rfl,
    C3_dedup.1 sIdx sStore sRecords sCfg "graph neural networks" [] 5
      ⟨sResults, 4⟩ rfl,
    rfl,
    C3_dedup.2 [⟨7, 2, 40⟩] ⟨7, 1, 60⟩ ⟨7, 2, 40⟩ rfl⟩

/-- Witness for C4 on the concrete scenario search. -/
theorem C4_layer_bound_witness :
    search ⟨some sIdx, some sStore⟩ sRecords sCfg "graph neural networks" [] 5 =
        .ok ⟨sResults, 4⟩ ∧
      ∀ r ∈ sResults, r.layer ≤ sCfg.maxDepth :=
  ⟨rfl, C4_layer_bound sIdx sStore sRecords sCfg "graph neural networks" [] 5
    ⟨sResults, 4⟩ rfl⟩

/-- Witness for C5 at layer 1 of the scenario, at record D (id 4): admitted
because B's lookup returns it at similarity 80 ≥ τ₁ = 75 and it was not
previously discovered. -/
theorem C5_layer_admission_witness :
    1 ≤ 1 ∧ 1 ≤ sCfg.maxDepth ∧
      ((4 ∈ candIds (layerNew sIdx sStore sCfg 1 sSeeds sSeeds) ↔
        ∃ p ∈ sSeeds, ∃ v, sStore.getVector p.id = some v ∧
          ∃ s, (4, s) ∈ sIdx.topK v sCfg.topKCount (candIds sSeeds) ∧
            sCfg.floors 1 ≤ s) ∧
      (4 ∈ candIds (layerNew sIdx sStore sCfg 1 sSeeds sSeeds) →
        4 ∉ candIds sSeeds)) :=
  ⟨le_refl 1, by decide,
    C5_layer_admission sIdx sStore sCfg 1 sSeeds sSeeds 4 (le_refl 1) (by decide)⟩

/-- Membership in an inclusive integer range. -/
theorem mem_intRange {a b i : Int} : i ∈ intRange a b ↔ a ≤ i ∧ i ≤ b := by
  rw [intRange]
  simp only [List.mem_map, List.mem_range]
  constructor
  · rintro ⟨j, hj, rfl⟩
    omega
  · rintro ⟨h1, h2⟩
    exact ⟨(i - a).toNat, by omega, by omega⟩

/-- An inclusive integer range is strictly increasing. -/
theorem pairwise_intRange (a b : Int) : (intRange a b).Pairwise (· < ·) := by
  rw [intRange]
  rw [List.pairwise_map]
  exact (List.pairwise_lt_range _).imp (fun hij => by omega)

/-- The length of an inclusive integer range. -/
theorem length_intRange (a b : Int) :
    (intRange a b).length = (b + 1 - a).toNat := by
  rw [intRange, List.length_map, List.length_range]

/-- `numericPages` distributes over concatenation. -/
theorem numericPages_append (l1 l2 : List Int) :
    numericPages (l1 ++ l2) = numericPages l1 ++ numericPages l2 :=
  List.filter_append _ _

/-- A list of genuine page numbers is untouched by `numericPages`. -/
theorem numericPages_of_pos {l : List Int} (h : ∀ p ∈ l, 1 ≤ p) :
    numericPages l = l := by
  rw [numericPages, List.filter_eq_self]
  intro p hp
  have h1 := h p hp
  simp only [Bool.and_eq_true, bne_iff_ne, ne_eq]
  omega

/-- The window bounds of the pagination renderer: when more than seven pages
exist, the window starts at 2 or later, ends before the last page, is
nonempty, and spans at most five numbers. -/
theorem pageStart_le_pageEnd (totalPages currentPage : Int)
    (ht : 8 ≤ totalPages) :
    pageStart totalPages currentPage ≤ pageEnd totalPages currentPage ∧
      2 ≤ pageStart totalPages currentPage ∧
      pageEnd totalPages currentPage ≤ totalPages - 1 ∧
      pageEnd totalPages currentPage - pageStart totalPages currentPage ≤ 4 := by
  rw [pageStart, pageEnd]
  simp only [max_def, min_def]
  split_ifs <;> omega

/-- C10: for every `totalPages ≥ 1` and every integer `currentPage`, the
numeric entries of the pagination page list contain page 1 and page
`totalPages`, all lie in `[1, totalPages]`, are strictly increasing, and
number at most seven. -/
theorem C10_pagination (totalPages currentPage : Int) (h : 1 ≤ totalPages) :
    1 ∈ numericPages (paginationPages totalPages currentPage) ∧
      totalPages ∈ numericPages (paginationPages totalPages currentPage) ∧
      (∀ p ∈ numericPages (paginationPages totalPages currentPage),
        1 ≤ p ∧ p ≤ totalPages) ∧
      (numericPages (paginationPages totalPages currentPage)).Pairwise (· < ·) ∧
      (numericPages (paginationPages totalPages currentPage)).length ≤ 7 := by
  by_cases hsmall : totalPages ≤ 7
  · have hlist : numericPages (paginationPages totalPages currentPage) =
        intRange 1 totalPages := by
      rw [paginationPages, if_pos hsmall]
      exact numericPages_of_pos (fun p hp => (mem_intRange.mp hp).1)
    rw [hlist]
    refine ⟨mem_intRange.mpr ⟨le_refl 1, h⟩,
      mem_intRange.mpr ⟨h, le_refl totalPages⟩,
      fun p hp => mem_intRange.mp hp,
      pairwise_intRange 1 totalPages, ?_⟩
    rw [length_intRange]
    omega
  · have ht : 8 ≤ totalPages := by omega
    obtain ⟨hse, hs2, het, hdiff⟩ :=
      pageStart_le_pageEnd totalPages currentPage ht
    have hm1 : numericPages
        (if 2 < pageStart totalPages currentPage then [-1] else []) = [] := by
      split <;> rfl
    have hm2 : numericPages
        (if pageEnd totalPages currentPage < totalPages - 1 then [-2] else [])
        = [] := by
      split <;> rfl
    have hR : numericPages (intRange (pageStart totalPages currentPage)
        (pageEnd totalPages currentPage)) =
        intRange (pageStart totalPages currentPage)
          (pageEnd totalPages currentPage) :=
      numericPages_of_pos (fun p hp => by
        have := (mem_intRange.mp hp).1
        omega)
    have hT : numericPages [totalPages] = [totalPages] :=
      numericPages_of_pos (fun p hp => by
        rw [List.mem_singleton.mp hp]
        omega)
    have hlist : numericPages (paginationPages totalPages currentPage) =
        1 :: (intRange (pageStart totalPages currentPage)
          (pageEnd totalPages currentPage) ++ [totalPages]) := by
      rw [paginationPages, if_neg hsmall, numericPages_append,
        numericPages_append, numericPages_append, numericPages_append,
        hm1, hm2, hR, hT]
      have hone : numericPages [1] = [1] := rfl
      rw [hone]
      simp
    rw [hlist]
    have hmemR : ∀ p ∈ intRange (pageStart totalPages currentPage)
        (pageEnd totalPages currentPage) ++ [totalPages],
        2 ≤ p ∧ p ≤ totalPages := by
      intro p hp
      rcases List.mem_append.mp hp with hp | hp
      · have := mem_intRange.mp hp
        omega
      · rw [List.mem_singleton.mp hp]
        omega
    refine ⟨List.mem_cons_self 1 _, ?_, ?_, ?_, ?_⟩
    · exact List.mem_cons_of_mem 1 (List.mem_append.mpr
        (Or.inr (List.mem_singleton.mpr rfl)))
    · intro p hp
      rcases List.mem_cons.mp hp with rfl | hp
      · omega
      · have := hmemR p hp
        omega
    · refine List.pairwise_cons.mpr ⟨fun p hp => ?_, ?_⟩
      · have := hmemR p hp
        omega
      · refine List.pairwise_append.mpr
          ⟨pairwise_intRange _ _, List.pairwise_singleton _ _, ?_⟩
        intro x hx y hy
        rw [List.mem_singleton.mp hy]
        have := (mem_intRange.mp hx).2
        omega
    · rw [List.length_cons, List.length_append, List.length_singleton,
        length_intRange]
      omega

/-- Witness for C10 at `totalPages = 10`, `currentPage = 1`. -/
theorem C10_pagination_witness :
    (1 : Int) ≤ 10 ∧
      (1 ∈ numericPages (paginationPages 10 1) ∧
        (10 : Int) ∈ numericPages (paginationPages 10 1) ∧
        (∀ p ∈ numericPages (paginationPages 10 1), 1 ≤ p ∧ p ≤ 10) ∧
        (numericPages (paginationPages 10 1)).Pairwise (· < ·) ∧
        (numericPages (paginationPages 10 1)).length ≤ 7) :=
  ⟨by decide, C10_pagination 10 1 (by decide)⟩

end YAPWC
